import Mathlib

/-!
# Verification of the swisspollentools scaffold/worker runtime

Shallow embedding of the core runtime of the `swisspollentools` pipeline
framework: the message model (`utils/constants.py`, `utils/messages.py`),
the envelope transport (`utils/requests.py`), the scaffolds
(`scaffolds/{ventilator,collator,parallel,sink}/scaffold.py`), the worker
harnesses (`utils/base_workers.py`) and the extraction message
constructors (`workers/extraction/messages.py`).

Python dictionaries are modelled as association lists over `String` keys;
machine behaviour that can raise (`KeyError`, `ValueError`, ...) is
modelled with `Except`.  Socket loops are modelled as functions over a
finite list of inbound events, one ready socket per poll iteration.
-/

set_option autoImplicit false

namespace SPT

/-! ## Constants (`utils/constants.py`) -/

def KEY_SEP : String := "/"

def HEADER_KEY : String := "header"
def BODY_KEY : String := "body"

def REQUEST_TYPE_KEY : String := HEADER_KEY ++ KEY_SEP ++ "request_type"
def FILE_PATH_KEY : String := HEADER_KEY ++ KEY_SEP ++ "file_path"
def N_ITEMS_KEY : String := BODY_KEY ++ KEY_SEP ++ "n_items"
def BATCH_ID_KEY : String := HEADER_KEY ++ KEY_SEP ++ "batch_id"

def END_OF_TASK_VALUE : String := "EndOfTask"
def END_OF_PROCESS_VALUE : String := "EndOfProcess"
def EXPECTED_N_ITEMS_VALUE : String := "ExpectedNItems"
def EXTRACTION_REQUEST_VALUE : String := "ExtractionRequest"
def EXTRACTION_RESPONSE_VALUE : String := "ExtractionResponse"

/-! ## Values and messages

A message is a Python `dict` with string keys.  Values carried by
messages are JSON scalars, `None`, or numpy arrays (`utils/requests.py`
treats `np.ndarray` values specially).  A numpy array is modelled by its
dtype, its shape and its underlying contiguous byte buffer. -/

/-- Closed enumeration of numpy element types handled by the envelope. -/
inductive Dtype where
  | bool | int8 | int16 | int32 | int64
  | uint8 | uint16 | uint32 | uint64
  | float16 | float32 | float64
deriving DecidableEq, Repr

/-- `numpy` itemsize of each dtype, in bytes. -/
def Dtype.itemsize : Dtype → Nat
  | .bool => 1 | .int8 => 1 | .int16 => 2 | .int32 => 4 | .int64 => 8
  | .uint8 => 1 | .uint16 => 2 | .uint32 => 4 | .uint64 => 8
  | .float16 => 2 | .float32 => 4 | .float64 => 8

/-- The string `str(v.dtype)` produced by numpy for each dtype. -/
def Dtype.name : Dtype → String
  | .bool => "bool" | .int8 => "int8" | .int16 => "int16"
  | .int32 => "int32" | .int64 => "int64"
  | .uint8 => "uint8" | .uint16 => "uint16"
  | .uint32 => "uint32" | .uint64 => "uint64"
  | .float16 => "float16" | .float32 => "float32" | .float64 => "float64"

/-- Inverse of `Dtype.name`, as used by `np.frombuffer(..., dtype=dtype)`
on the receiving side. -/
def parseDtype : String → Option Dtype
  | "bool" => some .bool
  | "int8" => some .int8 | "int16" => some .int16
  | "int32" => some .int32 | "int64" => some .int64
  | "uint8" => some .uint8 | "uint16" => some .uint16
  | "uint32" => some .uint32 | "uint64" => some .uint64
  | "float16" => some .float16 | "float32" => some .float32
  | "float64" => some .float64
  | _ => none

/-- A numpy array: element type, shape, and the raw byte buffer
(`v.tobytes()`, which is what `socket.send(v)` transmits). -/
structure NDArray where
  dtype : Dtype
  shape : List Nat
  data : List Nat
deriving DecidableEq, Repr

/-- A C-contiguous ndarray's buffer length is `itemsize * prod shape`. -/
def NDArray.wf (a : NDArray) : Prop :=
  a.data.length = a.dtype.itemsize * a.shape.prod

instance (a : NDArray) : Decidable a.wf := by
  unfold NDArray.wf; infer_instance

/-- A value stored in a message dictionary. -/
inductive MVal where
  | s : String → MVal
  | i : Int → MVal
  | b : Bool → MVal
  | none : MVal
  | arr : NDArray → MVal
deriving DecidableEq, Repr

/-- `isinstance(v, np.ndarray)`. -/
def MVal.isArr : MVal → Bool
  | .arr _ => true
  | _ => false

/-- A message: a Python dict, i.e. an ordered association list with
(dynamically) unique string keys. -/
abbrev Msg := List (String × MVal)

/-- First-match lookup, i.e. `d[k]` on a dict without duplicate keys. -/
def mlookup (k : String) : Msg → Option MVal
  | [] => Option.none
  | (k', v) :: rest => if k' = k then some v else mlookup k rest

/-- `k in d.keys()`. -/
def hasKey (k : String) (d : Msg) : Bool :=
  (mlookup k d).isSome

/-! ## Control message constructors (`utils/messages.py`) -/

/-- `EndOfTask()`: `{REQUEST_TYPE_KEY: END_OF_TASK_VALUE}`. -/
def EndOfTask : Msg := [(REQUEST_TYPE_KEY, .s END_OF_TASK_VALUE)]

/-- `EndOfProcess()`: `{REQUEST_TYPE_KEY: END_OF_PROCESS_VALUE}`. -/
def EndOfProcess : Msg := [(REQUEST_TYPE_KEY, .s END_OF_PROCESS_VALUE)]

/-- `ExpectedNItems(n_items)`. -/
def ExpectedNItems (n_items : Int) : Msg :=
  [(REQUEST_TYPE_KEY, .s EXPECTED_N_ITEMS_VALUE), (N_ITEMS_KEY, .i n_items)]

/-- Decidable equality on `Except` results (for evaluating the models on
closed inputs). -/
instance {ε α : Type} [DecidableEq ε] [DecidableEq α] :
    DecidableEq (Except ε α) := fun x y =>
  match x, y with
  | .error e, .error e' =>
    if h : e = e' then .isTrue (by rw [h]) else
      .isFalse (by intro hc; cases hc; exact h rfl)
  | .ok a, .ok a' =>
    if h : a = a' then .isTrue (by rw [h]) else
      .isFalse (by intro hc; cases hc; exact h rfl)
  | .error _, .ok _ => .isFalse (by intro hc; cases hc)
  | .ok _, .error _ => .isFalse (by intro hc; cases hc)

/-! ## Errors -/

/-- The Python exceptions the embedded code can raise. -/
inductive PyError where
  | valueError
  | keyError (key : String)
  | typeError
  | indexError
deriving DecidableEq, Repr

/-- `d[k]` with `KeyError` on a missing key. -/
def getItem (d : Msg) (k : String) : Except PyError MVal :=
  match mlookup k d with
  | some v => .ok v
  | Option.none => .error (.keyError k)

/-! ## Message predicates (`utils/messages.py`)

`ismsg` demands a `dict` argument, so its domain is modelled by `PyObj`,
a Python object that may or may not be a dictionary.  The predicates
`iseot`, `iseop`, `isexnit` are wrapped by the `assert_ismsg` decorator,
which re-raises `ValueError` whenever `ismsg` is false. -/

/-- A Python object as passed to `ismsg`: a dict, or some non-dict. -/
inductive PyObj where
  | dict : Msg → PyObj
  | str : String → PyObj
  | int : Int → PyObj
  | noneObj : PyObj
deriving DecidableEq, Repr

def PyObj.isDict : PyObj → Bool
  | .dict _ => true
  | _ => false

/-- `ismsg`: raises `ValueError` on non-dict input, else tests
`REQUEST_TYPE_KEY in msg.keys()`. -/
def ismsg : PyObj → Except PyError Bool
  | .dict d => .ok (hasKey REQUEST_TYPE_KEY d)
  | _ => .error .valueError

/-- The `assert_ismsg` decorator: check `ismsg(msg)`, raise `ValueError`
if it is false, otherwise call the wrapped function on the dict. -/
def assert_ismsg (func : Msg → Bool) (o : PyObj) : Except PyError Bool :=
  match ismsg o with
  | .error e => .error e
  | .ok false => .error .valueError
  | .ok true =>
    match o with
    | .dict d => .ok (func d)
    | _ => .error .valueError

/-- `iseot`: tag equality with `END_OF_TASK_VALUE`, under `assert_ismsg`. -/
def iseot : PyObj → Except PyError Bool :=
  assert_ismsg (fun d => mlookup REQUEST_TYPE_KEY d = some (.s END_OF_TASK_VALUE))

/-- `iseop`: tag equality with `END_OF_PROCESS_VALUE`, under `assert_ismsg`. -/
def iseop : PyObj → Except PyError Bool :=
  assert_ismsg (fun d => mlookup REQUEST_TYPE_KEY d = some (.s END_OF_PROCESS_VALUE))

/-- `isexnit`: tag equality with `EXPECTED_N_ITEMS_VALUE`, under
`assert_ismsg`. -/
def isexnit : PyObj → Except PyError Bool :=
  assert_ismsg (fun d => mlookup REQUEST_TYPE_KEY d = some (.s EXPECTED_N_ITEMS_VALUE))

/-! ## Ventilator (`scaffolds/ventilator/scaffold.py`)

After binding its sockets the ventilator runs
```
n_tasks_counter = 0
for el in iterable:
    send_request(sender, request_fn(el, **kwargs))
    n_tasks_counter += 1
send_request(scaffold_sender, ExpectedNItems(n_tasks_counter))
```
We record the messages pushed on each socket, in order. -/

structure VentilatorResult where
  /-- messages pushed on the data PUSH socket, in order -/
  pushed : List Msg
  /-- messages sent on the scaffold PAIR socket, in order -/
  scaffoldOut : List Msg
deriving DecidableEq, Repr

/-- The ventilator main loop and final notification. -/
def Ventilator {α : Type} (request_fn : α → Msg) (iterable : List α) :
    VentilatorResult :=
  { pushed := iterable.map request_fn
    scaffoldOut := [ExpectedNItems iterable.length] }

/-! ## Collator (`scaffolds/collator/scaffold.py`)

The collator polls two inbound streams — the data PULL socket and the
upstream scaffold PAIR socket — with a level-triggered poller.  We model a
run as a finite sequence of inbound events, one ready socket per poll
iteration (the poller is level-triggered, so a message that is not read in
the iteration it became ready is read in a later one; every interleaving
the Python loop can observe corresponds to such a sequence). -/

/-- An inbound event: a message ready on the data PULL socket, or on the
upstream scaffold PAIR socket. -/
inductive Event where
  | data : Msg → Event
  | scaffold : Msg → Event
deriving DecidableEq, Repr

structure CollatorState where
  /-- `n_tasks`; `Option.none` models the initial `float("inf")`. -/
  n_tasks : Option Int
  eot_counter : Nat
  n_tasks_counter : Nat
  /-- messages pushed on the data PUSH socket so far, in order -/
  pushed : List Msg
  /-- events consumed so far, oldest first (proof artifact) -/
  log : List Event
deriving DecidableEq, Repr

def collatorInit : CollatorState :=
  { n_tasks := Option.none, eot_counter := 0, n_tasks_counter := 0,
    pushed := [], log := [] }

/-- The `while eot_counter < n_tasks` condition; any `Nat` is below
`float("inf")`. -/
def collatorCond (s : CollatorState) : Bool :=
  match s.n_tasks with
  | Option.none => true
  | some n => decide ((s.eot_counter : Int) < n)

/-- One poll iteration of the collator body.  `request_fn` is called as
`request_fn(file_path=request[FILE_PATH_KEY], batch_id=request[BATCH_ID_KEY],
response=request)`. -/
def collatorStep (request_fn : MVal → MVal → Msg → Msg)
    (s : CollatorState) (e : Event) : Except PyError CollatorState :=
  match e with
  | .data m => do
    let b ← iseot (.dict m)
    if b then
      .ok { s with eot_counter := s.eot_counter + 1, log := s.log ++ [e] }
    else do
      let fp ← getItem m FILE_PATH_KEY
      let bid ← getItem m BATCH_ID_KEY
      .ok { s with pushed := s.pushed ++ [request_fn fp bid m],
                   n_tasks_counter := s.n_tasks_counter + 1,
                   log := s.log ++ [e] }
  | .scaffold m => do
    let b ← isexnit (.dict m)
    if b then do
      let v ← getItem m N_ITEMS_KEY
      match v with
      | .i n => .ok { s with n_tasks := some n, log := s.log ++ [e] }
      | _ => .error .typeError
    else
      .ok { s with log := s.log ++ [e] }

/-- The collator message loop.  `ok none` models the loop blocking forever
in `poller.poll()` (events exhausted with the condition still true);
`ok (some (s, rest))` models normal loop exit with final state `s` and the
events `rest` still unread. -/
def collatorLoop (request_fn : MVal → MVal → Msg → Msg) :
    List Event → CollatorState →
    Except PyError (Option (CollatorState × List Event))
  | [], s =>
    if collatorCond s then .ok Option.none else .ok (some (s, []))
  | e :: rest, s =>
    if collatorCond s then
      match collatorStep request_fn s e with
      | .error err => .error err
      | .ok s' => collatorLoop request_fn rest s'
    else
      .ok (some (s, e :: rest))

/-- Observable output of a terminating collator run. -/
structure CollatorResult where
  pushed : List Msg
  scaffoldOut : List Msg
  controlOut : List Msg
deriving DecidableEq, Repr

/-- The whole `Collator` body after the sockets are bound: run the loop,
then send `ExpectedNItems(n_tasks_counter)` on the scaffold PAIR-out
socket and broadcast `EndOfProcess` on the control PUB socket. -/
def Collator (request_fn : MVal → MVal → Msg → Msg) (evs : List Event) :
    Except PyError (Option CollatorResult) :=
  match collatorLoop request_fn evs collatorInit with
  | .error err => .error err
  | .ok Option.none => .ok Option.none
  | .ok (some (s, _rest)) =>
    .ok (some { pushed := s.pushed,
                scaffoldOut := [ExpectedNItems (s.n_tasks_counter : Int)],
                controlOut := [EndOfProcess] })

/-! ### Counting helpers over event logs -/

/-- The messages received on the data socket. -/
def dataMsgs (log : List Event) : List Msg :=
  log.filterMap fun e =>
    match e with
    | .data m => some m
    | .scaffold _ => Option.none

/-- Tag test `request[REQUEST_TYPE_KEY] == END_OF_TASK_VALUE` as a plain
boolean (total; in a successful run every consumed data message carries
the tag key). -/
def msgIsEot (m : Msg) : Bool :=
  mlookup REQUEST_TYPE_KEY m = some (.s END_OF_TASK_VALUE)

def eotData (log : List Event) : List Msg :=
  (dataMsgs log).filter msgIsEot

def nonEotData (log : List Event) : List Msg :=
  (dataMsgs log).filter (fun m => ¬ msgIsEot m)

/-- The `n_items` payloads of the well-formed `ExpectedNItems` messages
received on the scaffold socket, in order. -/
def exnitValues (log : List Event) : List Int :=
  log.filterMap fun e =>
    match e with
    | .scaffold m =>
      if mlookup REQUEST_TYPE_KEY m = some (.s EXPECTED_N_ITEMS_VALUE) then
        match mlookup N_ITEMS_KEY m with
        | some (.i n) => some n
        | _ => Option.none
      else Option.none
    | .data _ => Option.none

/-- Relation between a consumed non-`EndOfTask` data message and the
message pushed for it: pushed exactly once, transformed by `request_fn`
applied to the message's file path, batch id, and the message itself. -/
def pushedFor (request_fn : MVal → MVal → Msg → Msg) (m p : Msg) : Prop :=
  ∃ fp bid, mlookup FILE_PATH_KEY m = some fp ∧
    mlookup BATCH_ID_KEY m = some bid ∧ p = request_fn fp bid m

/-- Collator loop invariant: the counters and the pushed stream are
determined by the consumed events. -/
def collatorInv (request_fn : MVal → MVal → Msg → Msg)
    (s : CollatorState) : Prop :=
  s.eot_counter = (eotData s.log).length ∧
  s.n_tasks_counter = (nonEotData s.log).length ∧
  List.Forall₂ (pushedFor request_fn) (nonEotData s.log) s.pushed ∧
  s.n_tasks = (exnitValues s.log).getLast?

/-! ### Collator loop lemmas -/

/-! ## Sink (`scaffolds/sink/scaffold.py`)

Same polling structure as the collator, but non-`EndOfTask` data messages
are ignored and nothing is forwarded; after the loop only `EndOfProcess`
is published on the control socket. -/

structure SinkState where
  n_tasks : Option Int
  eot_counter : Nat
  log : List Event
deriving DecidableEq, Repr

def sinkInit : SinkState :=
  { n_tasks := Option.none, eot_counter := 0, log := [] }

def sinkCond (s : SinkState) : Bool :=
  match s.n_tasks with
  | Option.none => true
  | some n => decide ((s.eot_counter : Int) < n)

def sinkStep (s : SinkState) (e : Event) : Except PyError SinkState :=
  match e with
  | .data m => do
    let b ← iseot (.dict m)
    if b then
      .ok { s with eot_counter := s.eot_counter + 1, log := s.log ++ [e] }
    else
      .ok { s with log := s.log ++ [e] }
  | .scaffold m => do
    let b ← isexnit (.dict m)
    if b then do
      let v ← getItem m N_ITEMS_KEY
      match v with
      | .i n => .ok { s with n_tasks := some n, log := s.log ++ [e] }
      | _ => .error .typeError
    else
      .ok { s with log := s.log ++ [e] }

def sinkLoop : List Event → SinkState →
    Except PyError (Option (SinkState × List Event))
  | [], s =>
    if sinkCond s then .ok Option.none else .ok (some (s, []))
  | e :: rest, s =>
    if sinkCond s then
      match sinkStep s e with
      | .error err => .error err
      | .ok s' => sinkLoop rest s'
    else
      .ok (some (s, e :: rest))

structure SinkResult where
  controlOut : List Msg
deriving DecidableEq, Repr

/-- The `Sink` body after binding: run the loop, then publish
`EndOfProcess` once on the control socket. -/
def Sink (evs : List Event) : Except PyError (Option SinkResult) :=
  match sinkLoop evs sinkInit with
  | .error err => .error err
  | .ok Option.none => .ok Option.none
  | .ok (some _) => .ok (some { controlOut := [EndOfProcess] })

/-- Sink loop invariant. -/
def sinkInv (s : SinkState) : Prop :=
  s.eot_counter = (eotData s.log).length ∧
  s.n_tasks = (exnitValues s.log).getLast?

/-! ## Parallel (`scaffolds/parallel/scaffold.py`)

Only the construction prologue is needed here:
```
if not len(push_ports) == len(scaffold_ports) - 1:
    raise ValueError()
...   # sockets are created after the check
```
The sockets subsequently created are modelled by the ports they are
bound/connected to. -/

structure ParallelSockets where
  receiver : Int
  senders : List Int
  scaffold_receiver : Int
  scaffold_senders : List Int
deriving DecidableEq, Repr

/-- Construction of the `Parallel` scaffold up to and including socket
creation.  The length check runs before any socket exists; Python's
`len(scaffold_ports) - 1` is `Int` arithmetic (`-1` on an empty tuple). -/
def ParallelConstruct (pull_port : Int) (push_ports : List Int)
    (scaffold_ports : List Int) : Except PyError ParallelSockets :=
  if ¬ ((push_ports.length : Int) = (scaffold_ports.length : Int) - 1) then
    .error .valueError
  else
    match scaffold_ports with
    | [] => .error .indexError
    | sp0 :: rest =>
      .ok { receiver := pull_port, senders := push_ports,
            scaffold_receiver := sp0, scaffold_senders := rest }

/-! ## Worker harness (`utils/base_workers.py`)

A worker polls its data PULL socket and its control SUB socket; we model
a run as a finite sequence of inbound events (one ready socket per poll
iteration; the end of the sequence models the wall-clock timeout of the
`while time.time() < timeout_start + timeout` loop).

The user worker is a generator: calling it on a request yields a finite
sequence of responses and then either finishes normally or raises.  It is
modelled as a function returning the responses yielded before completion
plus the exception, if one was raised.  The optional `on_failure` callback
is modelled by recording the exceptions it is invoked with. -/

inductive WEvent where
  | data : Msg → WEvent
  | control : Msg → WEvent
deriving DecidableEq, Repr

def wDataMsgs (log : List WEvent) : List Msg :=
  log.filterMap fun e =>
    match e with
    | .data m => some m
    | .control _ => Option.none

structure PPState where
  /-- messages pushed on the data PUSH socket so far, in order -/
  pushed : List Msg
  /-- exceptions reported to `on_failure`, in order -/
  failures : List PyError
  log : List WEvent
deriving DecidableEq, Repr

def ppInit : PPState := { pushed := [], failures := [], log := [] }

/-- The data branch of the pull-push worker loop:
```
try:
    for response in worker(request, config, **kwargs):
        send_request(sender, response)
except Exception as e:
    if on_failure is not None:
        on_failure(e)
send_request(sender, EndOfTask())
```
`worker m = (responses, exn)`: the responses pushed before the generator
finished or raised, and the exception if it raised. -/
def ppHandleData (worker : Msg → List Msg × Option PyError)
    (s : PPState) (m : Msg) : PPState :=
  let out := worker m
  { pushed := s.pushed ++ out.1 ++ [EndOfTask]
    failures := s.failures ++ (match out.2 with
      | some e => [e]
      | Option.none => [])
    log := s.log ++ [WEvent.data m] }

/-- The pull-push worker message loop; exits on a control `EndOfProcess`
(`break`, leaving later events unread) or at the end of the event
sequence (timeout). -/
def ppLoop (worker : Msg → List Msg × Option PyError) :
    List WEvent → PPState → Except PyError (PPState × List WEvent)
  | [], s => .ok (s, [])
  | e :: rest, s =>
    match e with
    | .data m => ppLoop worker rest (ppHandleData worker s m)
    | .control m =>
      match iseop (.dict m) with
      | .error err => .error err
      | .ok true => .ok ({ s with log := s.log ++ [e] }, rest)
      | .ok false => ppLoop worker rest { s with log := s.log ++ [e] }

/-- Pull-push worker loop invariant. -/
def ppInv (worker : Msg → List Msg × Option PyError) (s : PPState) : Prop :=
  s.pushed = (wDataMsgs s.log).flatMap (fun m => (worker m).1 ++ [EndOfTask]) ∧
  s.failures = (wDataMsgs s.log).filterMap (fun m => (worker m).2)

/-! ### Collate worker (`CollateWorker` in `utils/base_workers.py`) -/

structure CWState where
  /-- the `requests` buffer accumulated by the loop -/
  requests : List Msg
  pushed : List Msg
  log : List WEvent
deriving DecidableEq, Repr

def cwInit : CWState := { requests := [], pushed := [], log := [] }

/-- The collate worker message loop: append each inbound data request to
the buffer and push one `EndOfTask`; break on control `EndOfProcess`. -/
def cwLoop : List WEvent → CWState → Except PyError (CWState × List WEvent)
  | [], s => .ok (s, [])
  | e :: rest, s =>
    match e with
    | .data m =>
      cwLoop rest { requests := s.requests ++ [m],
                    pushed := s.pushed ++ [EndOfTask],
                    log := s.log ++ [e] }
    | .control m =>
      match iseop (.dict m) with
      | .error err => .error err
      | .ok true => .ok ({ s with log := s.log ++ [e] }, rest)
      | .ok false => cwLoop rest { s with log := s.log ++ [e] }

structure CWResult where
  pushed : List Msg
  failures : List PyError
deriving DecidableEq, Repr

/-- The collate worker after the loop:
```
try:
    response = worker(requests, config, **kwargs)
    send_request(sender, response)
except Exception as e:
    if on_failure is not None:
        on_failure(e)
```
-/
def CollateWorker (worker : List Msg → Except PyError Msg)
    (evs : List WEvent) : Except PyError CWResult :=
  match cwLoop evs cwInit with
  | .error err => .error err
  | .ok (s, _rest) =>
    match worker s.requests with
    | .ok response => .ok { pushed := s.pushed ++ [response], failures := [] }
    | .error e => .ok { pushed := s.pushed, failures := [e] }

/-- Collate worker loop invariant. -/
def cwInv (s : CWState) : Prop :=
  s.requests = wDataMsgs s.log ∧
  s.pushed = List.replicate (wDataMsgs s.log).length EndOfTask

/-! ## Message envelope (`utils/requests.py`)

`send_request` serializes a request as: a JSON frame with the non-array
fields, a JSON frame with the array metadata map
`{field → (str(dtype), shape)}`, then one raw byte frame per array, in
metadata order.  `recv_request` reads them back, reconstructing each array
with `np.frombuffer(..., dtype=dtype).reshape(shape)`.  JSON
encoding/decoding is modelled as the identity on the structured frame
payloads. -/

/-- A ZeroMQ frame as produced by `send_json` / `send`. -/
inductive Frame where
  | json : Msg → Frame
  | jsonMd : List (String × String × List Nat) → Frame
  | raw : List Nat → Frame
deriving DecidableEq, Repr

/-- `send_request(socket, request)`: the sequence of frames written to the
socket. -/
def send_request (request : Msg) : List Frame :=
  let md := request.filterMap fun kv =>
    match kv.2 with
    | .arr a => some (kv.1, a.dtype.name, a.shape)
    | _ => Option.none
  let scalars := request.filter fun kv => ¬ kv.2.isArr
  if md.isEmpty then
    [.json scalars, .jsonMd []]
  else
    [.json scalars, .jsonMd md] ++ md.map fun entry =>
      Frame.raw (match mlookup entry.1 request with
        | some (.arr a) => a.data
        | _ => [])

/-- `np.frombuffer(buf, dtype)`: fatal unless the buffer holds a whole
number of items; returns the item count. -/
def frombuffer (bytes : List Nat) (dt : Dtype) : Except PyError Nat :=
  if bytes.length % dt.itemsize = 0 then .ok (bytes.length / dt.itemsize)
  else .error .valueError

/-- `.reshape(shape)`: fatal unless the item count matches the shape. -/
def reshape (count : Nat) (shape : List Nat) : Except PyError Unit :=
  if count = shape.prod then .ok () else .error .valueError

/-- Python dict assignment `d[k] = v` on an association list. -/
def dictInsert (d : Msg) (k : String) (v : MVal) : Msg :=
  if hasKey k d then
    d.map fun kv => if kv.1 = k then (k, v) else kv
  else
    d ++ [(k, v)]

/-- The metadata loop of `recv_request`: for each metadata entry read one
raw frame and reconstruct the array. -/
def recvArrays : Msg → List (String × String × List Nat) → List Frame →
    Except PyError Msg
  | req, [], _ => .ok req
  | req, (k, dts, shape) :: md, frames =>
    match frames with
    | Frame.raw bytes :: rest =>
      match parseDtype dts with
      | some dt =>
        match frombuffer bytes dt with
        | .error err => .error err
        | .ok count =>
          match reshape count shape with
          | .error err => .error err
          | .ok _ =>
            recvArrays (dictInsert req k (.arr ⟨dt, shape, bytes⟩)) md rest
      | Option.none => .error .typeError
    | _ => .error .valueError

/-- `recv_request(socket)`: read the scalar frame, the metadata frame,
then one raw frame per metadata entry. -/
def recv_request (frames : List Frame) : Except PyError Msg :=
  match frames with
  | Frame.json req :: Frame.jsonMd md :: rest => recvArrays req md rest
  | _ => .error .valueError

/-- The array entries of a request, in order (proof artifact). -/
def arrEntries (request : Msg) : List (String × NDArray) :=
  request.filterMap fun kv =>
    match kv.2 with
    | .arr a => some (kv.1, a)
    | _ => Option.none

/-- The non-array entries of a request, in order (proof artifact). -/
def scalarPart (request : Msg) : Msg :=
  request.filter fun kv => ¬ kv.2.isArr

/-! ## Extraction messages (`workers/extraction/messages.py`) and
`flatten_dictionary` (`utils/utils.py`)

The constructors build a Python dict whose values may themselves be
dictionaries, then flatten it.  `JVal` is a possibly-nested dict value;
`flatten_dictionary` mirrors the source recursion. -/

inductive JVal where
  | atom : MVal → JVal
  | dict : List (String × JVal) → JVal

def JVal.isDictJ : JVal → Bool
  | .dict _ => true
  | .atom _ => false

/-- `parent_key + separator + key if parent_key else key`. -/
def newKey (parent key : String) : String :=
  if parent = "" then key else parent ++ KEY_SEP ++ key

/-- `flatten_dictionary(dictionary, parent_key, separator="/")`. -/
def flatten_dictionary : List (String × JVal) → String → List (String × MVal)
  | [], _ => []
  | (key, .atom v) :: rest, parent =>
    (newKey parent key, v) :: flatten_dictionary rest parent
  | (key, .dict d) :: rest, parent =>
    flatten_dictionary d (newKey parent key) ++ flatten_dictionary rest parent

/-- Python dict assignment `d[k] = v` on a nested dict. -/
def dictInsertJ (d : List (String × JVal)) (k : String) (v : JVal) :
    List (String × JVal) :=
  if (d.map Prod.fst).contains k then
    d.map fun kv => if kv.1 = k then (k, v) else kv
  else
    d ++ [(k, v)]

/-- Insert the value only when it is not `None`
(`if x is not None: msg[KEY] = x`). -/
def insertOpt (d : List (String × JVal)) (k : String) (v : Option JVal) :
    List (String × JVal) :=
  match v with
  | some x => dictInsertJ d k x
  | Option.none => d

/-- `ExtractionRequest(file_path, batch_id=None, response={})`: only the
request type and the file path are stored; `batch_id` and `response` are
accepted and ignored by the source. -/
def ExtractionRequest (file_path : String) (batch_id : JVal)
    (response : List (String × JVal)) : List (String × MVal) :=
  let _ := batch_id
  let _ := response
  let msg : List (String × JVal) :=
    dictInsertJ [(REQUEST_TYPE_KEY, .atom (.s EXTRACTION_REQUEST_VALUE))]
      FILE_PATH_KEY (.atom (.s file_path))
  flatten_dictionary msg ""

def METADATA_KEY : String := BODY_KEY ++ KEY_SEP ++ "metadata"
def FLUODATA_KEY : String := BODY_KEY ++ KEY_SEP ++ "fluodata"
def REC_PROPERTIES_KEY : String := BODY_KEY ++ KEY_SEP ++ "rec_properties"
def REC0_PROPERTIES_KEY : String := REC_PROPERTIES_KEY ++ KEY_SEP ++ "0"
def REC1_PROPERTIES_KEY : String := REC_PROPERTIES_KEY ++ KEY_SEP ++ "1"
def REC_KEY : String := BODY_KEY ++ KEY_SEP ++ "rec"
def REC0_KEY : String := REC_KEY ++ KEY_SEP ++ "0"
def REC1_KEY : String := REC_KEY ++ KEY_SEP ++ "1"
def LABEL_KEY : String := BODY_KEY ++ KEY_SEP ++ "label"

/-- `ExtractionResponse(file_path, batch_id=None, metadata=None, ...)`:
assignments in source order, positional extras under `body/<index>`,
keyword extras under `body/<name>`, then `flatten_dictionary`. -/
def ExtractionResponse (file_path : String) (batch_id : JVal)
    (metadata fluodata : Option JVal)
    (rec_properties : Option (JVal × JVal))
    (rec0 rec1 label : Option JVal)
    (args : List JVal) (kwargs : List (String × JVal)) :
    List (String × MVal) :=
  let msg : List (String × JVal) :=
    [(REQUEST_TYPE_KEY, .atom (.s EXTRACTION_RESPONSE_VALUE))]
  let msg := dictInsertJ msg FILE_PATH_KEY (.atom (.s file_path))
  let msg := dictInsertJ msg BATCH_ID_KEY batch_id
  let msg := insertOpt msg METADATA_KEY metadata
  let msg := insertOpt msg FLUODATA_KEY fluodata
  let msg := match rec_properties with
    | some rp => dictInsertJ (dictInsertJ msg REC0_PROPERTIES_KEY rp.1)
        REC1_PROPERTIES_KEY rp.2
    | Option.none => msg
  let msg := insertOpt msg REC0_KEY rec0
  let msg := insertOpt msg REC1_KEY rec1
  let msg := insertOpt msg LABEL_KEY label
  let msg := (args.enum.map fun p => (BODY_KEY ++ KEY_SEP ++ toString p.1, p.2)).foldl
    (fun acc kv => dictInsertJ acc kv.1 kv.2) msg
  let msg := (kwargs.map fun kv => (BODY_KEY ++ KEY_SEP ++ kv.1, kv.2)).foldl
    (fun acc kv => dictInsertJ acc kv.1 kv.2) msg
  flatten_dictionary msg ""

/-! ## Concrete sample data (used to evaluate the models on closed runs) -/

def sampleResponse : Msg :=
  [(REQUEST_TYPE_KEY, .s EXTRACTION_RESPONSE_VALUE),
   (FILE_PATH_KEY, .s "a.zip"), (BATCH_ID_KEY, .none)]

def idRequestFn : MVal → MVal → Msg → Msg := fun _ _ response => response

def sampleEvents : List Event :=
  [.data sampleResponse, .data EndOfTask, .scaffold (ExpectedNItems 1)]

def sampleFinal : CollatorState :=
  { n_tasks := some 1, eot_counter := 1, n_tasks_counter := 1,
    pushed := [sampleResponse], log := sampleEvents }

def sinkSampleEvents : List Event :=
  [.data EndOfTask, .scaffold (ExpectedNItems 1)]

def sinkSampleFinal : SinkState :=
  { n_tasks := some 1, eot_counter := 1, log := sinkSampleEvents }

/-- A sample request with scalars and one float32 array of shape (1, 2)
(bytes of `[1.0, 2.0]` little-endian). -/
def rtSample : Msg :=
  [(REQUEST_TYPE_KEY, .s EXTRACTION_RESPONSE_VALUE),
   (FILE_PATH_KEY, .s "a.zip"),
   (REC0_KEY, .arr ⟨.float32, [1, 2], [0, 0, 128, 63, 0, 0, 0, 64]⟩)]

/-- A user worker that yields nothing and raises on every request. -/
def ppSampleWorker : Msg → List Msg × Option PyError :=
  fun _ => ([], some .valueError)

def ppSampleEvents : List WEvent :=
  [.data sampleResponse, .control EndOfProcess]

def ppSampleFinal : PPState :=
  { pushed := [EndOfTask], failures := [.valueError], log := ppSampleEvents }

/-- A collate user worker folding the buffer into one summary message. -/
def cwSampleWorker : List Msg → Except PyError Msg :=
  fun requests => .ok (ExpectedNItems (requests.length : Int))

def cwSampleEvents : List WEvent :=
  [.data sampleResponse, .data sampleResponse, .control EndOfProcess]

def cwSampleFinal : CWState :=
  { requests := [sampleResponse, sampleResponse],
    pushed := [EndOfTask, EndOfTask], log := cwSampleEvents }

theorem parseDtype_name (d : Dtype) : parseDtype d.name = some d := by
  cases d <;> rfl

theorem dataMsgs_append (l l' : List Event) :
    dataMsgs (l ++ l') = dataMsgs l ++ dataMsgs l' :=
  List.filterMap_append _ _ _

theorem eotData_append (l l' : List Event) :
    eotData (l ++ l') = eotData l ++ eotData l' := by
  simp [eotData, dataMsgs_append, List.filter_append]

theorem nonEotData_append (l l' : List Event) :
    nonEotData (l ++ l') = nonEotData l ++ nonEotData l' := by
  simp [nonEotData, dataMsgs_append, List.filter_append]

theorem exnitValues_append (l l' : List Event) :
    exnitValues (l ++ l') = exnitValues l ++ exnitValues l' :=
  List.filterMap_append _ _ _

theorem assert_ismsg_ok (func : Msg → Bool) (o : PyObj) (b : Bool)
    (h : assert_ismsg func o = .ok b) :
    ∃ d, o = .dict d ∧ hasKey REQUEST_TYPE_KEY d = true ∧ b = func d := by
  cases o with
  | dict d =>
    cases hk : hasKey REQUEST_TYPE_KEY d with
    | false => simp [assert_ismsg, ismsg, hk] at h
    | true =>
      simp only [assert_ismsg, ismsg, hk] at h
      exact ⟨d, rfl, hk, (Except.ok.injEq _ _ ▸ h).symm⟩
  | str s => simp [assert_ismsg, ismsg] at h
  | int i => simp [assert_ismsg, ismsg] at h
  | noneObj => simp [assert_ismsg, ismsg] at h

theorem getItem_ok (d : Msg) (k : String) (v : MVal)
    (h : getItem d k = .ok v) : mlookup k d = some v := by
  unfold getItem at h
  cases hl : mlookup k d <;> rw [hl] at h <;> simp_all

/-- One collator step preserves the invariant and extends the log by
exactly the consumed event. -/
theorem collatorStep_ok (request_fn : MVal → MVal → Msg → Msg)
    (s : CollatorState) (e : Event) (s' : CollatorState)
    (h : collatorStep request_fn s e = .ok s')
    (hinv : collatorInv request_fn s) :
    collatorInv request_fn s' ∧ s'.log = s.log ++ [e] := by
  obtain ⟨h1, h2, h3, h4⟩ := hinv
  cases e with
  | data m =>
    simp only [collatorStep] at h
    cases hb : iseot (.dict m) with
    | error err => rw [hb] at h; simp [Bind.bind, Except.bind] at h
    | ok b =>
      rw [hb] at h
      obtain ⟨d, hd, hk, hbf⟩ := assert_ismsg_ok _ _ _ hb
      cases hd
      cases b with
      | true =>
        simp only [Bind.bind, Except.bind, eq_self_iff_true, if_true,
          Except.ok.injEq] at h
        subst h
        have heot : msgIsEot m = true := by
          simpa [msgIsEot] using hbf.symm
        refine ⟨⟨?_, ?_, ?_, ?_⟩, rfl⟩
        · simp [eotData_append, eotData, dataMsgs, heot, h1]
        · simp [nonEotData_append, nonEotData, dataMsgs, heot, h2]
        · have : nonEotData (s.log ++ [Event.data m]) = nonEotData s.log := by
            simp [nonEotData_append, nonEotData, dataMsgs, heot]
          simpa [this] using h3
        · simp [exnitValues_append, exnitValues, h4]
      | false =>
        simp only [Bind.bind, Except.bind, Bool.false_eq_true, if_false] at h
        have hne : msgIsEot m = false := by
          simpa [msgIsEot] using hbf.symm
        cases hfp : getItem m FILE_PATH_KEY with
        | error err => rw [hfp] at h; simp at h
        | ok fp =>
          rw [hfp] at h
          cases hbid : getItem m BATCH_ID_KEY with
          | error err => rw [hbid] at h; simp at h
          | ok bid =>
            rw [hbid] at h
            simp only [Except.ok.injEq] at h
            subst h
            refine ⟨⟨?_, ?_, ?_, ?_⟩, rfl⟩
            · simp [eotData_append, eotData, dataMsgs, hne, h1]
            · simp [nonEotData_append, nonEotData, dataMsgs, hne, h2]
            · have : nonEotData (s.log ++ [Event.data m])
                  = nonEotData s.log ++ [m] := by
                simp [nonEotData_append, nonEotData, dataMsgs, hne]
              rw [this]
              exact List.rel_append h3
                (List.Forall₂.cons
                  ⟨fp, bid, getItem_ok _ _ _ hfp, getItem_ok _ _ _ hbid, rfl⟩
                  List.Forall₂.nil)
            · simp [exnitValues_append, exnitValues, h4]
  | scaffold m =>
    simp only [collatorStep] at h
    cases hb : isexnit (.dict m) with
    | error err => rw [hb] at h; simp [Bind.bind, Except.bind] at h
    | ok b =>
      rw [hb] at h
      obtain ⟨d, hd, hk, hbf⟩ := assert_ismsg_ok _ _ _ hb
      cases hd
      cases b with
      | true =>
        have htag : mlookup REQUEST_TYPE_KEY m
            = some (.s EXPECTED_N_ITEMS_VALUE) := by
          simpa using hbf.symm
        simp only [Bind.bind, Except.bind, eq_self_iff_true, if_true] at h
        cases hni : getItem m N_ITEMS_KEY with
        | error err => rw [hni] at h; simp at h
        | ok v =>
          rw [hni] at h
          cases v with
          | i n =>
            simp only [Except.ok.injEq] at h
            subst h
            refine ⟨⟨?_, ?_, ?_, ?_⟩, rfl⟩
            · simp [eotData_append, eotData, dataMsgs, h1]
            · simp [nonEotData_append, nonEotData, dataMsgs, h2]
            · simpa [nonEotData_append, nonEotData, dataMsgs] using h3
            · have hval : mlookup N_ITEMS_KEY m = some (.i n) :=
                getItem_ok _ _ _ hni
              simp [exnitValues_append, exnitValues, htag, hval]
          | s v => simp at h
          | b v => simp at h
          | none => simp at h
          | arr v => simp at h
      | false =>
        simp only [Bind.bind, Except.bind, Bool.false_eq_true, if_false,
          Except.ok.injEq] at h
        subst h
        have htag : ¬ mlookup REQUEST_TYPE_KEY m
            = some (.s EXPECTED_N_ITEMS_VALUE) := by
          intro hcon
          simp [hcon] at hbf
        refine ⟨⟨?_, ?_, ?_, ?_⟩, rfl⟩
        · simp [eotData_append, eotData, dataMsgs, h1]
        · simp [nonEotData_append, nonEotData, dataMsgs, h2]
        · simpa [nonEotData_append, nonEotData, dataMsgs] using h3
        · simp [exnitValues_append, exnitValues, htag, h4]

/-- The collator loop: on normal exit the invariant holds for the final
state, the loop condition is false, and the final log is exactly the
consumed prefix of the event sequence. -/
theorem collatorLoop_ok (request_fn : MVal → MVal → Msg → Msg) :
    ∀ (evs : List Event) (s s' : CollatorState) (rest : List Event),
      collatorLoop request_fn evs s = .ok (some (s', rest)) →
      collatorInv request_fn s →
      collatorInv request_fn s' ∧ collatorCond s' = false ∧
      ∃ consumed, s'.log = s.log ++ consumed ∧ evs = consumed ++ rest := by
  intro evs
  induction evs with
  | nil =>
    intro s s' rest h hinv
    by_cases hc : collatorCond s = true
    · simp [collatorLoop, hc] at h
    · simp only [collatorLoop, Bool.not_eq_true] at hc
      simp only [collatorLoop, hc, Bool.false_eq_true, if_false,
        Except.ok.injEq, Option.some.injEq, Prod.mk.injEq] at h
      obtain ⟨rfl, rfl⟩ := h
      exact ⟨hinv, hc, [], by simp, by simp⟩
  | cons e tl ih =>
    intro s s' rest h hinv
    by_cases hc : collatorCond s = true
    · simp only [collatorLoop, hc, if_true] at h
      cases hst : collatorStep request_fn s e with
      | error err => rw [hst] at h; simp at h
      | ok s1 =>
        rw [hst] at h
        obtain ⟨hinv1, hlog1⟩ := collatorStep_ok _ _ _ _ hst hinv
        obtain ⟨hinv', hcond', consumed, hlog, hevs⟩ := ih s1 s' rest h hinv1
        exact ⟨hinv', hcond', e :: consumed,
          by simp [hlog, hlog1], by simp [hevs]⟩
    · simp only [Bool.not_eq_true] at hc
      simp only [collatorLoop, hc, Bool.false_eq_true, if_false,
        Except.ok.injEq, Option.some.injEq, Prod.mk.injEq] at h
      obtain ⟨rfl, rfl⟩ := h
      exact ⟨hinv, hc, [], by simp, by simp⟩

theorem collatorInit_inv (request_fn : MVal → MVal → Msg → Msg) :
    collatorInv request_fn collatorInit :=
  ⟨rfl, rfl, List.Forall₂.nil, rfl⟩

/-- The final `n_tasks` value originates from a received well-formed
`ExpectedNItems` message on the scaffold socket. -/
theorem n_tasks_from_exnit (log : List Event) (n : Int)
    (h : (exnitValues log).getLast? = some n) :
    ∃ m, Event.scaffold m ∈ log ∧
      mlookup REQUEST_TYPE_KEY m = some (.s EXPECTED_N_ITEMS_VALUE) ∧
      mlookup N_ITEMS_KEY m = some (.i n) := by
  have hmem : n ∈ exnitValues log := by
    obtain ⟨hne, heq⟩ :=
      List.mem_getLast?_eq_getLast (l := exnitValues log) (x := n)
        (Option.mem_def.mpr h)
    exact heq ▸ List.getLast_mem hne
  obtain ⟨e, he, hfe⟩ := List.mem_filterMap.mp hmem
  cases e with
  | data m => simp at hfe
  | scaffold m =>
    dsimp only at hfe
    refine ⟨m, he, ?_⟩
    by_cases htag : mlookup REQUEST_TYPE_KEY m
        = some (.s EXPECTED_N_ITEMS_VALUE)
    · refine ⟨htag, ?_⟩
      rw [if_pos htag] at hfe
      cases hni : mlookup N_ITEMS_KEY m with
      | none => rw [hni] at hfe; simp at hfe
      | some v =>
        rw [hni] at hfe
        cases v <;> simp_all
    · rw [if_neg htag] at hfe
      simp at hfe

/-! ### Sink loop lemmas -/

theorem sinkStep_ok (s : SinkState) (e : Event) (s' : SinkState)
    (h : sinkStep s e = .ok s') (hinv : sinkInv s) :
    sinkInv s' ∧ s'.log = s.log ++ [e] := by
  obtain ⟨h1, h2⟩ := hinv
  cases e with
  | data m =>
    simp only [sinkStep] at h
    cases hb : iseot (.dict m) with
    | error err => rw [hb] at h; simp [Bind.bind, Except.bind] at h
    | ok b =>
      rw [hb] at h
      obtain ⟨d, hd, hk, hbf⟩ := assert_ismsg_ok _ _ _ hb
      cases hd
      cases b with
      | true =>
        simp only [Bind.bind, Except.bind, eq_self_iff_true, if_true,
          Except.ok.injEq] at h
        subst h
        have heot : msgIsEot m = true := by
          simpa [msgIsEot] using hbf.symm
        refine ⟨⟨?_, ?_⟩, rfl⟩
        · simp [eotData_append, eotData, dataMsgs, heot, h1]
        · simp [exnitValues_append, exnitValues, h2]
      | false =>
        simp only [Bind.bind, Except.bind, Bool.false_eq_true, if_false,
          Except.ok.injEq] at h
        subst h
        have hne : msgIsEot m = false := by
          simpa [msgIsEot] using hbf.symm
        refine ⟨⟨?_, ?_⟩, rfl⟩
        · simp [eotData_append, eotData, dataMsgs, hne, h1]
        · simp [exnitValues_append, exnitValues, h2]
  | scaffold m =>
    simp only [sinkStep] at h
    cases hb : isexnit (.dict m) with
    | error err => rw [hb] at h; simp [Bind.bind, Except.bind] at h
    | ok b =>
      rw [hb] at h
      obtain ⟨d, hd, hk, hbf⟩ := assert_ismsg_ok _ _ _ hb
      cases hd
      cases b with
      | true =>
        have htag : mlookup REQUEST_TYPE_KEY m
            = some (.s EXPECTED_N_ITEMS_VALUE) := by
          simpa using hbf.symm
        simp only [Bind.bind, Except.bind, eq_self_iff_true, if_true] at h
        cases hni : getItem m N_ITEMS_KEY with
        | error err => rw [hni] at h; simp at h
        | ok v =>
          rw [hni] at h
          cases v with
          | i n =>
            simp only [Except.ok.injEq] at h
            subst h
            refine ⟨⟨?_, ?_⟩, rfl⟩
            · simp [eotData_append, eotData, dataMsgs, h1]
            · have hval : mlookup N_ITEMS_KEY m = some (.i n) :=
                getItem_ok _ _ _ hni
              simp [exnitValues_append, exnitValues, htag, hval]
          | s v => simp at h
          | b v => simp at h
          | none => simp at h
          | arr v => simp at h
      | false =>
        simp only [Bind.bind, Except.bind, Bool.false_eq_true, if_false,
          Except.ok.injEq] at h
        subst h
        have htag : ¬ mlookup REQUEST_TYPE_KEY m
            = some (.s EXPECTED_N_ITEMS_VALUE) := by
          intro hcon
          simp [hcon] at hbf
        refine ⟨⟨?_, ?_⟩, rfl⟩
        · simp [eotData_append, eotData, dataMsgs, h1]
        · simp [exnitValues_append, exnitValues, htag, h2]

theorem sinkLoop_ok :
    ∀ (evs : List Event) (s s' : SinkState) (rest : List Event),
      sinkLoop evs s = .ok (some (s', rest)) → sinkInv s →
      sinkInv s' ∧ sinkCond s' = false ∧
      ∃ consumed, s'.log = s.log ++ consumed ∧ evs = consumed ++ rest := by
  intro evs
  induction evs with
  | nil =>
    intro s s' rest h hinv
    by_cases hc : sinkCond s = true
    · simp [sinkLoop, hc] at h
    · simp only [Bool.not_eq_true] at hc
      simp only [sinkLoop, hc, Bool.false_eq_true, if_false,
        Except.ok.injEq, Option.some.injEq, Prod.mk.injEq] at h
      obtain ⟨rfl, rfl⟩ := h
      exact ⟨hinv, hc, [], by simp, by simp⟩
  | cons e tl ih =>
    intro s s' rest h hinv
    by_cases hc : sinkCond s = true
    · simp only [sinkLoop, hc, if_true] at h
      cases hst : sinkStep s e with
      | error err => rw [hst] at h; simp at h
      | ok s1 =>
        rw [hst] at h
        obtain ⟨hinv1, hlog1⟩ := sinkStep_ok _ _ _ hst hinv
        obtain ⟨hinv', hcond', consumed, hlog, hevs⟩ := ih s1 s' rest h hinv1
        exact ⟨hinv', hcond', e :: consumed,
          by simp [hlog, hlog1], by simp [hevs]⟩
    · simp only [Bool.not_eq_true] at hc
      simp only [sinkLoop, hc, Bool.false_eq_true, if_false,
        Except.ok.injEq, Option.some.injEq, Prod.mk.injEq] at h
      obtain ⟨rfl, rfl⟩ := h
      exact ⟨hinv, hc, [], by simp, by simp⟩

/-! ### Worker harness lemmas -/

theorem wDataMsgs_append (l l' : List WEvent) :
    wDataMsgs (l ++ l') = wDataMsgs l ++ wDataMsgs l' :=
  List.filterMap_append _ _ _

theorem ppHandleData_inv (worker : Msg → List Msg × Option PyError)
    (s : PPState) (m : Msg) (hinv : ppInv worker s) :
    ppInv worker (ppHandleData worker s m) ∧
    (ppHandleData worker s m).log = s.log ++ [WEvent.data m] := by
  obtain ⟨h1, h2⟩ := hinv
  refine ⟨⟨?_, ?_⟩, rfl⟩
  · simp only [ppHandleData, wDataMsgs_append, List.flatMap_append, h1]
    simp [wDataMsgs]
  · simp only [ppHandleData, wDataMsgs_append, List.filterMap_append, h2]
    cases hw : (worker m).2 <;> simp [wDataMsgs, hw]

theorem ppLoop_ok (worker : Msg → List Msg × Option PyError) :
    ∀ (evs : List WEvent) (s s' : PPState) (rest : List WEvent),
      ppLoop worker evs s = .ok (s', rest) → ppInv worker s →
      ppInv worker s' ∧
      ∃ consumed, s'.log = s.log ++ consumed ∧ evs = consumed ++ rest := by
  intro evs
  induction evs with
  | nil =>
    intro s s' rest h hinv
    simp only [ppLoop, Except.ok.injEq, Prod.mk.injEq] at h
    obtain ⟨rfl, rfl⟩ := h
    exact ⟨hinv, [], by simp, by simp⟩
  | cons e tl ih =>
    intro s s' rest h hinv
    cases e with
    | data m =>
      simp only [ppLoop] at h
      obtain ⟨hinv1, hlog1⟩ := ppHandleData_inv worker s m hinv
      obtain ⟨hinv', consumed, hlog, hevs⟩ := ih _ s' rest h hinv1
      exact ⟨hinv', WEvent.data m :: consumed,
        by simp [hlog, hlog1], by simp [hevs]⟩
    | control m =>
      simp only [ppLoop] at h
      cases hb : iseop (.dict m) with
      | error err => rw [hb] at h; simp at h
      | ok b =>
        rw [hb] at h
        have hinv1 : ppInv worker { s with log := s.log ++ [WEvent.control m] } := by
          obtain ⟨h1, h2⟩ := hinv
          constructor <;> simp [wDataMsgs_append, wDataMsgs, h1, h2]
        cases b with
        | true =>
          simp only [Except.ok.injEq, Prod.mk.injEq] at h
          obtain ⟨rfl, rfl⟩ := h
          exact ⟨hinv1, [WEvent.control m], by simp, by simp⟩
        | false =>
          obtain ⟨hinv', consumed, hlog, hevs⟩ := ih _ s' rest h hinv1
          exact ⟨hinv', WEvent.control m :: consumed,
            by simp at hlog; simp [hlog], by simp [hevs]⟩

theorem cwLoop_ok :
    ∀ (evs : List WEvent) (s s' : CWState) (rest : List WEvent),
      cwLoop evs s = .ok (s', rest) → cwInv s →
      cwInv s' ∧
      ∃ consumed, s'.log = s.log ++ consumed ∧ evs = consumed ++ rest := by
  intro evs
  induction evs with
  | nil =>
    intro s s' rest h hinv
    simp only [cwLoop, Except.ok.injEq, Prod.mk.injEq] at h
    obtain ⟨rfl, rfl⟩ := h
    exact ⟨hinv, [], by simp, by simp⟩
  | cons e tl ih =>
    intro s s' rest h hinv
    cases e with
    | data m =>
      simp only [cwLoop] at h
      have hinv1 : cwInv
          ⟨s.requests ++ [m], s.pushed ++ [EndOfTask],
            s.log ++ [WEvent.data m]⟩ := by
        obtain ⟨h1, h2⟩ := hinv
        constructor
        · simp [wDataMsgs_append, wDataMsgs, h1]
        · simp [wDataMsgs_append, wDataMsgs, h2, List.replicate_succ']
      obtain ⟨hinv', consumed, hlog, hevs⟩ := ih _ s' rest h hinv1
      exact ⟨hinv', WEvent.data m :: consumed,
        by simp at hlog; simp [hlog], by simp [hevs]⟩
    | control m =>
      simp only [cwLoop] at h
      cases hb : iseop (.dict m) with
      | error err => rw [hb] at h; simp at h
      | ok b =>
        rw [hb] at h
        have hinv1 : cwInv { s with log := s.log ++ [WEvent.control m] } := by
          obtain ⟨h1, h2⟩ := hinv
          constructor <;> simp [wDataMsgs_append, wDataMsgs, h1, h2]
        cases b with
        | true =>
          simp only [Except.ok.injEq, Prod.mk.injEq] at h
          obtain ⟨rfl, rfl⟩ := h
          exact ⟨hinv1, [WEvent.control m], by simp, by simp⟩
        | false =>
          obtain ⟨hinv', consumed, hlog, hevs⟩ := ih _ s' rest h hinv1
          exact ⟨hinv', WEvent.control m :: consumed,
            by simp at hlog; simp [hlog], by simp [hevs]⟩

/-! ### Association list lemmas (for the envelope round trip) -/

theorem mlookup_append_some {k : String} {A : Msg} {v : MVal} (B : Msg)
    (h : mlookup k A = some v) : mlookup k (A ++ B) = some v := by
  induction A with
  | nil => simp [mlookup] at h
  | cons kv tl ih =>
    obtain ⟨k0, v0⟩ := kv
    simp only [mlookup] at h
    simp only [List.cons_append, mlookup]
    by_cases hk : k0 = k
    · rw [if_pos hk] at h ⊢; exact h
    · rw [if_neg hk] at h ⊢; exact ih h

theorem mlookup_append_none {k : String} {A : Msg} (B : Msg)
    (h : mlookup k A = Option.none) :
    mlookup k (A ++ B) = mlookup k B := by
  induction A with
  | nil => simp
  | cons kv tl ih =>
    obtain ⟨k0, v0⟩ := kv
    simp only [mlookup] at h
    simp only [List.cons_append, mlookup]
    by_cases hk : k0 = k
    · rw [if_pos hk] at h; simp at h
    · rw [if_neg hk] at h ⊢; exact ih h

theorem mlookup_eq_none_of_not_mem {k : String} {A : Msg}
    (h : k ∉ A.map Prod.fst) : mlookup k A = Option.none := by
  induction A with
  | nil => rfl
  | cons kv tl ih =>
    obtain ⟨k0, v0⟩ := kv
    simp only [List.map_cons, List.mem_cons] at h
    push_neg at h
    rw [mlookup, if_neg (fun hc => h.1 hc.symm)]
    exact ih h.2

theorem mlookup_skip_middle {k k0 : String} {v : MVal} (A B : Msg)
    (hk : k0 ≠ k) :
    mlookup k (A ++ (k0, v) :: B) = mlookup k (A ++ B) := by
  cases hA : mlookup k A with
  | some w => rw [mlookup_append_some _ hA, mlookup_append_some _ hA]
  | none =>
    rw [mlookup_append_none _ hA, mlookup_append_none _ hA,
      mlookup, if_neg hk]

/-- The keys of the scalar part followed by the array keys are a
permutation of the request's keys. -/
theorem scalar_arr_keys_perm (r : Msg) :
    ((scalarPart r).map Prod.fst ++ (arrEntries r).map Prod.fst).Perm
      (r.map Prod.fst) := by
  induction r with
  | nil => simp [scalarPart, arrEntries]
  | cons kv tl ih =>
    obtain ⟨k0, v0⟩ := kv
    by_cases hv : v0.isArr = true
    · obtain ⟨a, rfl⟩ : ∃ a, v0 = MVal.arr a := by
        cases v0 <;> simp_all [MVal.isArr]
      have hs : scalarPart ((k0, MVal.arr a) :: tl) = scalarPart tl := by
        simp [scalarPart, MVal.isArr]
      have ha : arrEntries ((k0, MVal.arr a) :: tl)
          = (k0, a) :: arrEntries tl := by
        simp [arrEntries]
      rw [hs, ha, List.map_cons, List.map_cons]
      exact List.perm_middle.trans (ih.cons k0)
    · rw [Bool.not_eq_true] at hv
      have hs : scalarPart ((k0, v0) :: tl) = (k0, v0) :: scalarPart tl := by
        simp [scalarPart, hv]
      have ha : arrEntries ((k0, v0) :: tl) = arrEntries tl := by
        cases v0 <;> simp_all [arrEntries, MVal.isArr]
      rw [hs, ha]
      simpa using ih.cons k0

/-- Array entries of a request point back to entries of the request. -/
theorem arrEntries_mem_orig {r : Msg} {k : String} {a : NDArray}
    (h : (k, a) ∈ arrEntries r) : (k, MVal.arr a) ∈ r := by
  obtain ⟨kv, hkv, hfe⟩ := List.mem_filterMap.mp h
  obtain ⟨k0, v0⟩ := kv
  cases v0 <;> simp_all

/-- On a request without duplicate keys, each array entry is what
`request[key]` looks up. -/
theorem mem_arrEntries_lookup {r : Msg}
    (hnd : (r.map Prod.fst).Nodup) {k : String} {a : NDArray}
    (h : (k, a) ∈ arrEntries r) : mlookup k r = some (.arr a) := by
  induction r with
  | nil => simp [arrEntries] at h
  | cons kv tl ih =>
    obtain ⟨k0, v0⟩ := kv
    simp only [List.map_cons, List.nodup_cons] at hnd
    rcases List.mem_filterMap.mp h with ⟨⟨k1, v1⟩, hm, hfe⟩
    rcases List.mem_cons.mp hm with hhead | htail
    · cases hhead
      cases v0 <;> simp_all [mlookup]
    · have hk : (k, a) ∈ arrEntries tl := by
        refine List.mem_filterMap.mpr ⟨(k1, v1), htail, hfe⟩
      have hkey : k ∈ tl.map Prod.fst := by
        have := arrEntries_mem_orig hk
        exact List.mem_map.mpr ⟨(k, .arr a), this, rfl⟩
      have hne : k0 ≠ k := fun hc => hnd.1 (hc ▸ hkey)
      rw [mlookup, if_neg hne]
      exact ih hnd.2 hk

/-- `send_request` in closed form: the scalar frame, the metadata frame
over the array entries, and one raw frame per array entry. -/
theorem send_request_eq (r : Msg) (hnd : (r.map Prod.fst).Nodup) :
    send_request r =
      [.json (scalarPart r),
       .jsonMd ((arrEntries r).map fun e => (e.1, e.2.dtype.name, e.2.shape))]
      ++ (arrEntries r).map fun e => Frame.raw e.2.data := by
  have hmd : (r.filterMap fun kv =>
      match kv.2 with
      | .arr a => some (kv.1, a.dtype.name, a.shape)
      | _ => Option.none) =
      (arrEntries r).map fun e => (e.1, e.2.dtype.name, e.2.shape) := by
    induction r with
    | nil => rfl
    | cons kv tl ih =>
      obtain ⟨k0, v0⟩ := kv
      cases v0 <;> simp_all [arrEntries]
  have hraw : ((arrEntries r).map fun e => (e.1, e.2.dtype.name, e.2.shape)).map
        (fun entry => Frame.raw (match mlookup entry.1 r with
          | some (.arr a) => a.data
          | _ => [])) =
      (arrEntries r).map fun e => Frame.raw e.2.data := by
    rw [List.map_map]
    refine List.map_congr_left ?_
    intro e he
    obtain ⟨k1, a1⟩ := e
    have hl := mem_arrEntries_lookup hnd he
    simp [Function.comp, hl]
  unfold send_request
  rw [hmd]
  by_cases hemp : ((arrEntries r).map
      fun e => (e.1, e.2.dtype.name, e.2.shape)).isEmpty
  · rw [if_pos hemp]
    have : arrEntries r = [] := by
      cases harr : arrEntries r
      · rfl
      · rw [harr] at hemp; simp [List.isEmpty] at hemp
    simp [this, scalarPart]
  · rw [if_neg hemp, hraw]
    rfl

theorem Dtype.itemsize_pos (d : Dtype) : 0 < d.itemsize := by
  cases d <;> decide

/-- The receive loop undoes the array frames produced by the sender. -/
theorem recvArrays_spec :
    ∀ (arrs : List (String × NDArray)) (req : Msg),
      (∀ e ∈ arrs, NDArray.wf e.2) →
      ((req.map Prod.fst ++ arrs.map Prod.fst).Nodup) →
      recvArrays req
        (arrs.map fun e => (e.1, e.2.dtype.name, e.2.shape))
        (arrs.map fun e => Frame.raw e.2.data)
      = .ok (req ++ arrs.map fun e => (e.1, MVal.arr e.2)) := by
  intro arrs
  induction arrs with
  | nil => intro req _ _; simp [recvArrays]
  | cons e tl ih =>
    intro req hwf hnd
    obtain ⟨k, a⟩ := e
    have hawf : a.data.length = a.dtype.itemsize * a.shape.prod :=
      hwf (k, a) (by simp)
    have hfb : frombuffer a.data a.dtype = .ok a.shape.prod := by
      rw [frombuffer, if_pos (by rw [hawf]; exact Nat.mul_mod_right _ _)]
      rw [hawf, Nat.mul_div_cancel_left _ (Dtype.itemsize_pos a.dtype)]
    have hrs : reshape a.shape.prod a.shape = .ok () := by
      rw [reshape, if_pos rfl]
    have hkey : k ∉ req.map Prod.fst := by
      have hdisj := List.disjoint_of_nodup_append hnd
      intro hc
      exact hdisj hc (by simp)
    have hins : dictInsert req k (MVal.arr ⟨a.dtype, a.shape, a.data⟩)
        = req ++ [(k, MVal.arr a)] := by
      rw [dictInsert, if_neg (by
        simp [hasKey, mlookup_eq_none_of_not_mem hkey])]
    simp only [List.map_cons, recvArrays, parseDtype_name, hfb, hrs, hins]
    have hnd' : ((req ++ [(k, MVal.arr a)]).map Prod.fst
        ++ tl.map Prod.fst).Nodup := by
      simpa using hnd
    rw [ih (req ++ [(k, MVal.arr a)])
      (fun e he => hwf e (List.mem_cons_of_mem _ he)) hnd']
    simp

/-- Scalar-then-array reassembly has the same lookups as the original. -/
theorem scalar_arr_lookup (r : Msg) (hnd : (r.map Prod.fst).Nodup)
    (k : String) :
    mlookup k (scalarPart r ++ (arrEntries r).map fun e => (e.1, MVal.arr e.2))
      = mlookup k r := by
  induction r with
  | nil => rfl
  | cons kv tl ih =>
    obtain ⟨k0, v0⟩ := kv
    simp only [List.map_cons, List.nodup_cons] at hnd
    have ihtl := ih hnd.2
    by_cases hv : v0.isArr = true
    · obtain ⟨a, rfl⟩ : ∃ a, v0 = MVal.arr a := by
        cases v0 <;> simp_all [MVal.isArr]
      have hs : scalarPart ((k0, MVal.arr a) :: tl) = scalarPart tl := by
        simp [scalarPart, MVal.isArr]
      have ha : arrEntries ((k0, MVal.arr a) :: tl)
          = (k0, a) :: arrEntries tl := by
        simp [arrEntries]
      rw [hs, ha, List.map_cons, mlookup]
      by_cases hk : k0 = k
      · subst hk
        rw [if_pos rfl]
        have hs0 : mlookup k0 (scalarPart tl) = Option.none := by
          refine mlookup_eq_none_of_not_mem ?_
          intro hc
          obtain ⟨⟨k1, v1⟩, hm1, hf1⟩ := List.mem_map.mp hc
          refine hnd.1 ?_
          refine List.mem_map.mpr ⟨(k1, v1), List.mem_of_mem_filter hm1, hf1⟩
        rw [mlookup_append_none _ hs0, mlookup, if_pos rfl]
      · rw [if_neg hk, mlookup_skip_middle _ _ hk]
        exact ihtl
    · rw [Bool.not_eq_true] at hv
      have hs : scalarPart ((k0, v0) :: tl) = (k0, v0) :: scalarPart tl := by
        simp [scalarPart, hv]
      have ha : arrEntries ((k0, v0) :: tl) = arrEntries tl := by
        cases v0 <;> simp_all [arrEntries, MVal.isArr]
      rw [hs, ha, List.cons_append, mlookup, mlookup]
      by_cases hk : k0 = k
      · rw [if_pos hk, if_pos hk]
      · rw [if_neg hk, if_neg hk]
        exact ihtl

/-! ### Flatten / extraction-constructor lemmas -/

theorem hasKey_of_mem {l : Msg} {k : String} {v : MVal}
    (h : (k, v) ∈ l) : hasKey k l = true := by
  induction l with
  | nil => simp at h
  | cons kv tl ih =>
    obtain ⟨k0, v0⟩ := kv
    rcases List.mem_cons.mp h with hh | ht
    · cases hh
      simp [hasKey, mlookup]
    · by_cases hk : k0 = k
      · simp [hasKey, mlookup, hk]
      · have htl := ih ht
        simp only [hasKey, mlookup, if_neg hk]
        exact htl

/-- A top-level non-dict entry of a dictionary survives flattening. -/
theorem flatten_mem_atom {d : List (String × JVal)} {k : String} {v : MVal}
    (h : (k, JVal.atom v) ∈ d) (parent : String) :
    (newKey parent k, v) ∈ flatten_dictionary d parent := by
  induction d with
  | nil => simp at h
  | cons kv tl ih =>
    obtain ⟨k0, j0⟩ := kv
    rcases List.mem_cons.mp h with hh | ht
    · cases hh
      simp [flatten_dictionary]
    · cases j0 with
      | atom w =>
        simp only [flatten_dictionary]
        exact List.mem_cons_of_mem _ (ih ht)
      | dict dd =>
        simp only [flatten_dictionary]
        exact List.mem_append_right _ (ih ht)

theorem mem_dictInsertJ_of_ne {d : List (String × JVal)} {k k' : String}
    {v : JVal} (v' : JVal) (h : (k, v) ∈ d) (hne : k ≠ k') :
    (k, v) ∈ dictInsertJ d k' v' := by
  rw [dictInsertJ]
  by_cases hc : (d.map Prod.fst).contains k' = true
  · rw [if_pos hc]
    exact List.mem_map.mpr ⟨(k, v), h, by simp [hne]⟩
  · rw [if_neg hc]
    exact List.mem_append_left _ h

theorem mem_dictInsertJ_self (d : List (String × JVal)) (k' : String)
    (v' : JVal) : (k', v') ∈ dictInsertJ d k' v' := by
  rw [dictInsertJ]
  by_cases hc : (d.map Prod.fst).contains k' = true
  · rw [if_pos hc]
    have hk : k' ∈ d.map Prod.fst := by simpa using hc
    obtain ⟨⟨k1, w⟩, hm, hf⟩ := List.mem_map.mp hk
    refine List.mem_map.mpr ⟨(k1, w), hm, ?_⟩
    simp only at hf
    simp [hf]
  · rw [if_neg hc]
    exact List.mem_append_right _ (by simp)

theorem mem_insertOpt_of_ne {d : List (String × JVal)} {k : String}
    {v : JVal} (k' : String) (o : Option JVal) (h : (k, v) ∈ d)
    (hne : k ≠ k') : (k, v) ∈ insertOpt d k' o := by
  cases o
  · exact h
  · exact mem_dictInsertJ_of_ne _ h hne

theorem mem_foldl_insert {l : List (String × JVal)}
    {d : List (String × JVal)} {k : String} {v : JVal}
    (h : (k, v) ∈ d) (hne : ∀ kv ∈ l, k ≠ kv.1) :
    (k, v) ∈ l.foldl (fun acc kv => dictInsertJ acc kv.1 kv.2) d := by
  induction l generalizing d with
  | nil => exact h
  | cons kv tl ih =>
    simp only [List.foldl_cons]
    exact ih (mem_dictInsertJ_of_ne _ h (hne kv (by simp)))
      (fun kv' h' => hne kv' (by simp [h']))

theorem ne_of_head_ne {k1 k2 : String} (c1 c2 : Char)
    (h1 : k1.data.head? = some c1) (h2 : k2.data.head? = some c2)
    (hc : c1 ≠ c2) : k1 ≠ k2 := by
  intro h
  rw [h, h2] at h1
  exact hc (Option.some.inj h1.symm)

/-- All the body-side assignments of `ExtractionResponse` leave any
header-side entry (key starting with `'h'`) untouched. -/
theorem mem_extraction_response_dict (metadata fluodata : Option JVal)
    (rec_properties : Option (JVal × JVal)) (rec0 rec1 label : Option JVal)
    (args : List JVal) (kwargs : List (String × JVal))
    {d : List (String × JVal)} {k : String} {v : JVal}
    (hk : (k, v) ∈ d) (hhead : k.data.head? = some 'h') :
    (k, v) ∈
      ((kwargs.map fun kv => (BODY_KEY ++ KEY_SEP ++ kv.1, kv.2)).foldl
        (fun acc kv => dictInsertJ acc kv.1 kv.2)
        ((args.enum.map fun p =>
            (BODY_KEY ++ KEY_SEP ++ toString p.1, p.2)).foldl
          (fun acc kv => dictInsertJ acc kv.1 kv.2)
          (insertOpt (insertOpt (insertOpt
            (match rec_properties with
              | some rp => dictInsertJ
                  (dictInsertJ
                    (insertOpt (insertOpt d METADATA_KEY metadata)
                      FLUODATA_KEY fluodata)
                    REC0_PROPERTIES_KEY rp.1)
                  REC1_PROPERTIES_KEY rp.2
              | Option.none =>
                insertOpt (insertOpt d METADATA_KEY metadata)
                  FLUODATA_KEY fluodata)
            REC0_KEY rec0) REC1_KEY rec1) LABEL_KEY label))) := by
  have hb : ∀ s : String, k ≠ BODY_KEY ++ KEY_SEP ++ s := by
    intro s
    exact ne_of_head_ne 'h' 'b' hhead rfl (by decide)
  have h1 : (k, v) ∈ insertOpt (insertOpt d METADATA_KEY metadata)
      FLUODATA_KEY fluodata :=
    mem_insertOpt_of_ne _ _ (mem_insertOpt_of_ne _ _ hk (hb _)) (hb _)
  have h2 : (k, v) ∈ (match rec_properties with
      | some rp => dictInsertJ
          (dictInsertJ
            (insertOpt (insertOpt d METADATA_KEY metadata)
              FLUODATA_KEY fluodata)
            REC0_PROPERTIES_KEY rp.1)
          REC1_PROPERTIES_KEY rp.2
      | Option.none =>
        insertOpt (insertOpt d METADATA_KEY metadata)
          FLUODATA_KEY fluodata) := by
    cases rec_properties with
    | none => exact h1
    | some rp =>
      refine mem_dictInsertJ_of_ne _ (mem_dictInsertJ_of_ne _ h1 ?_) ?_
      · exact ne_of_head_ne 'h' 'b' hhead rfl (by decide)
      · exact ne_of_head_ne 'h' 'b' hhead rfl (by decide)
  have h3 := mem_insertOpt_of_ne LABEL_KEY label
    (mem_insertOpt_of_ne REC1_KEY rec1
      (mem_insertOpt_of_ne REC0_KEY rec0 h2 (hb _)) (hb _)) (hb _)
  refine mem_foldl_insert (mem_foldl_insert h3 ?_) ?_
  · intro kv hkv
    obtain ⟨p, hp, rfl⟩ := List.mem_map.mp hkv
    exact hb _
  · intro kv hkv
    obtain ⟨p, hp, rfl⟩ := List.mem_map.mp hkv
    exact hb _

end SPT

/-! # Claim theorems -/

open SPT

/-- C5: For every finite input iterable of length N, the Ventilator sends
exactly N data messages (one per element, in iteration order, each produced
by applying the request function to that element) and then sends exactly
one `ExpectedNItems(N)` on the scaffold pair socket; in particular, for the
empty iterable it sends no data messages and sends `ExpectedNItems(0)`. -/
theorem ventilator_sends_n_then_expected {α : Type}
    (request_fn : α → Msg) (iterable : List α) :
    (Ventilator request_fn iterable).pushed.length = iterable.length ∧
    (∀ i : Fin iterable.length,
      (Ventilator request_fn iterable).pushed.get
        (Fin.cast (by simp [Ventilator]) i) = request_fn (iterable.get i)) ∧
    (Ventilator request_fn iterable).scaffoldOut =
      [ExpectedNItems iterable.length] ∧
    (Ventilator request_fn ([] : List α)).pushed = [] ∧
    (Ventilator request_fn ([] : List α)).scaffoldOut = [ExpectedNItems 0] := by
  refine ⟨by simp [Ventilator], ?_, rfl, rfl, rfl⟩
  intro i
  simp [Ventilator]

/-- C1: For every finite sequence of messages processed by the Collator
loop, each inbound message on the data port either increments the
`eot_counter` (when its request type is `EndOfTask`) or is transformed by
the request function and pushed exactly once while incrementing the
emitted counter (`n_tasks_counter`); consequently, on termination the
`ExpectedNItems` value the Collator sends downstream equals the number of
non-`EndOfTask` data messages it received. -/
theorem collator_accounting (request_fn : MVal → MVal → Msg → Msg)
    (evs : List Event) (s' : CollatorState) (rest : List Event)
    (h : collatorLoop request_fn evs collatorInit = .ok (some (s', rest))) :
    evs = s'.log ++ rest ∧
    s'.eot_counter = (eotData s'.log).length ∧
    s'.n_tasks_counter = (nonEotData s'.log).length ∧
    List.Forall₂ (pushedFor request_fn) (nonEotData s'.log) s'.pushed ∧
    Collator request_fn evs = .ok (some
      { pushed := s'.pushed
        scaffoldOut := [ExpectedNItems ((nonEotData s'.log).length : Int)]
        controlOut := [EndOfProcess] }) := by
  obtain ⟨⟨h1, h2, h3, h4⟩, hcond, consumed, hlog, hevs⟩ :=
    collatorLoop_ok request_fn evs collatorInit s' rest h (collatorInit_inv _)
  have hconsumed : consumed = s'.log := by
    simpa [collatorInit] using hlog.symm
  refine ⟨by rw [← hconsumed]; exact hevs, h1, h2, h3, ?_⟩
  unfold Collator
  rw [h, ← h2]

/-- C1 witness: a concrete three-event run (one data response, one
`EndOfTask`, one upstream `ExpectedNItems(1)`) forwards the single
response and announces `ExpectedNItems(1)` downstream. -/
theorem collator_accounting_witness :
    Collator idRequestFn sampleEvents = .ok (some
      { pushed := [sampleResponse]
        scaffoldOut := [ExpectedNItems 1]
        controlOut := [EndOfProcess] }) := by
  have h : collatorLoop idRequestFn sampleEvents collatorInit
      = .ok (some (sampleFinal, [])) := by decide
  have hmain := collator_accounting idRequestFn sampleEvents sampleFinal [] h
  refine hmain.2.2.2.2.trans ?_
  decide

/-- C2: The Collator loop starts with `expected = +∞` and repeats while
`eot_counter < expected`, where `expected` is only updated when an
`ExpectedNItems` message arrives on the upstream scaffold pair socket;
therefore the Collator never sends its own `ExpectedNItems` downstream nor
broadcasts `EndOfProcess` before it has received `ExpectedNItems` from the
upstream scaffold and counted at least that many `EndOfTask` messages. -/
theorem collator_gate (request_fn : MVal → MVal → Msg → Msg)
    (evs : List Event) (res : CollatorResult)
    (h : Collator request_fn evs = .ok (some res)) :
    collatorInit.n_tasks = Option.none ∧
    ∃ (s' : CollatorState) (rest : List Event) (n : Int),
      collatorLoop request_fn evs collatorInit = .ok (some (s', rest)) ∧
      evs = s'.log ++ rest ∧
      s'.n_tasks = (exnitValues s'.log).getLast? ∧
      s'.n_tasks = some n ∧
      n ≤ (s'.eot_counter : Int) ∧
      (∃ m, Event.scaffold m ∈ s'.log ∧
        mlookup REQUEST_TYPE_KEY m = some (.s EXPECTED_N_ITEMS_VALUE) ∧
        mlookup N_ITEMS_KEY m = some (.i n)) ∧
      res.scaffoldOut = [ExpectedNItems (s'.n_tasks_counter : Int)] ∧
      res.controlOut = [EndOfProcess] := by
  refine ⟨rfl, ?_⟩
  unfold Collator at h
  cases hl : collatorLoop request_fn evs collatorInit with
  | error err => rw [hl] at h; simp at h
  | ok o =>
    rw [hl] at h
    cases o with
    | none => simp at h
    | some p =>
      obtain ⟨s', rest⟩ := p
      simp only [Except.ok.injEq, Option.some.injEq] at h
      subst h
      obtain ⟨⟨h1, h2, h3, h4⟩, hcond, consumed, hlog, hevs⟩ :=
        collatorLoop_ok request_fn evs collatorInit s' rest hl
          (collatorInit_inv _)
      have hconsumed : consumed = s'.log := by
        simpa [collatorInit] using hlog.symm
      cases hn : s'.n_tasks with
      | none => rw [collatorCond, hn] at hcond; simp at hcond
      | some n =>
        obtain ⟨m, hm, htag, hval⟩ :=
          n_tasks_from_exnit s'.log n (by rw [← h4, hn])
        refine ⟨s', rest, n, rfl, by rw [← hconsumed]; exact hevs, h4, hn,
          ?_, ⟨m, hm, htag, hval⟩, rfl, rfl⟩
        rw [collatorCond, hn] at hcond
        simpa using hcond

/-- C2 witness: the same concrete run; the collator's outputs appear only
after `ExpectedNItems(1)` was received and one `EndOfTask` was counted. -/
theorem collator_gate_witness :
    collatorInit.n_tasks = Option.none ∧
    ∃ (s' : CollatorState) (rest : List Event) (n : Int),
      collatorLoop idRequestFn sampleEvents collatorInit
        = .ok (some (s', rest)) ∧
      sampleEvents = s'.log ++ rest ∧
      s'.n_tasks = (exnitValues s'.log).getLast? ∧
      s'.n_tasks = some n ∧
      n ≤ (s'.eot_counter : Int) ∧
      (∃ m, Event.scaffold m ∈ s'.log ∧
        mlookup REQUEST_TYPE_KEY m = some (.s EXPECTED_N_ITEMS_VALUE) ∧
        mlookup N_ITEMS_KEY m = some (.i n)) ∧
      [ExpectedNItems 1] = [ExpectedNItems (s'.n_tasks_counter : Int)] ∧
      ([EndOfProcess] : List Msg) = [EndOfProcess] := by
  have := collator_gate idRequestFn sampleEvents
    { pushed := [sampleResponse]
      scaffoldOut := [ExpectedNItems 1]
      controlOut := [EndOfProcess] } (by decide)
  exact this

/-- C6: The Sink counts only `EndOfTask` messages arriving on its data
pull port, loops while that count is below the expected value received via
`ExpectedNItems` on its pair socket, and after the loop ends publishes
`EndOfProcess` on its control socket exactly once and exits; it never
publishes `EndOfProcess` while the `EndOfTask` count is below the
announced expected value. -/
theorem sink_gate (evs : List Event) (s' : SinkState) (rest : List Event)
    (h : sinkLoop evs sinkInit = .ok (some (s', rest))) :
    s'.eot_counter = (eotData s'.log).length ∧
    evs = s'.log ++ rest ∧
    Sink evs = .ok (some { controlOut := [EndOfProcess] }) ∧
    ∃ n, s'.n_tasks = some n ∧ n ≤ (s'.eot_counter : Int) ∧
      ∃ m, Event.scaffold m ∈ s'.log ∧
        mlookup REQUEST_TYPE_KEY m = some (.s EXPECTED_N_ITEMS_VALUE) ∧
        mlookup N_ITEMS_KEY m = some (.i n) := by
  obtain ⟨⟨h1, h2⟩, hcond, consumed, hlog, hevs⟩ :=
    sinkLoop_ok evs sinkInit s' rest h ⟨rfl, rfl⟩
  have hconsumed : consumed = s'.log := by
    simpa [sinkInit] using hlog.symm
  refine ⟨h1, by rw [← hconsumed]; exact hevs, ?_, ?_⟩
  · unfold Sink
    rw [h]
  · cases hn : s'.n_tasks with
    | none => rw [sinkCond, hn] at hcond; simp at hcond
    | some n =>
      obtain ⟨m, hm, htag, hval⟩ :=
        n_tasks_from_exnit s'.log n (by rw [← h2, hn])
      refine ⟨n, rfl, ?_, m, hm, htag, hval⟩
      rw [sinkCond, hn] at hcond
      simpa using hcond

/-- C6 witness: a concrete run with one `EndOfTask` and an announced
expectation of one item publishes exactly one `EndOfProcess`. -/
theorem sink_gate_witness :
    Sink sinkSampleEvents = .ok (some { controlOut := [EndOfProcess] }) := by
  have h : sinkLoop sinkSampleEvents sinkInit
      = .ok (some (sinkSampleFinal, [])) := by decide
  exact (sink_gate sinkSampleEvents sinkSampleFinal [] h).2.2.1

/-- C3: For every data message received by a pull-push worker, exactly one
`EndOfTask` is pushed to the data-push socket, both when the user worker
function returns normally (after all its yielded responses are pushed) and
when it raises an exception; in the exception case the `on_failure`
callback, when provided, is invoked with the exception and no further
responses from that request are pushed. -/
theorem pullpush_one_eot_per_request
    (worker : Msg → List Msg × Option PyError)
    (evs : List WEvent) (s' : PPState) (rest : List WEvent)
    (h : ppLoop worker evs ppInit = .ok (s', rest)) :
    s'.pushed =
      (wDataMsgs s'.log).flatMap (fun m => (worker m).1 ++ [EndOfTask]) ∧
    s'.failures = (wDataMsgs s'.log).filterMap (fun m => (worker m).2) ∧
    evs = s'.log ++ rest ∧
    ((∀ m r, m ∈ wDataMsgs s'.log → r ∈ (worker m).1 → r ≠ EndOfTask) →
      s'.pushed.count EndOfTask = (wDataMsgs s'.log).length) := by
  obtain ⟨⟨h1, h2⟩, consumed, hlog, hevs⟩ :=
    ppLoop_ok worker evs ppInit s' rest h ⟨rfl, rfl⟩
  have hconsumed : consumed = s'.log := by
    simpa [ppInit] using hlog.symm
  refine ⟨h1, h2, by rw [← hconsumed]; exact hevs, ?_⟩
  intro hne
  rw [h1]
  generalize hgen : wDataMsgs s'.log = msgs
  rw [hgen] at hne
  clear hgen h1 h2 hevs hconsumed hlog h
  induction msgs with
  | nil => simp
  | cons m tl ih =>
    simp only [List.flatMap_cons, List.count_append, List.length_cons]
    have hm : (worker m).1.count EndOfTask = 0 := by
      refine List.count_eq_zero.mpr ?_
      intro hmem
      exact hne m EndOfTask (by simp) hmem rfl
    have htl := ih (fun m' r hm' hr => hne m' r (by simp [hm']) hr)
    simp [hm, htl]
    omega

/-- C3 witness: a worker that raises on its single request still results
in exactly one pushed `EndOfTask`, and the exception reaches
`on_failure`. -/
theorem pullpush_one_eot_witness :
    ppSampleFinal.pushed =
      (wDataMsgs ppSampleFinal.log).flatMap
        (fun m => (ppSampleWorker m).1 ++ [EndOfTask]) ∧
    ppSampleFinal.failures = [PyError.valueError] ∧
    ppSampleFinal.pushed.count EndOfTask = 1 := by
  have h : ppLoop ppSampleWorker ppSampleEvents ppInit
      = .ok (ppSampleFinal, []) := by decide
  obtain ⟨p1, p2, _, p4⟩ :=
    pullpush_one_eot_per_request ppSampleWorker ppSampleEvents
      ppSampleFinal [] h
  refine ⟨p1, by rw [p2]; decide, ?_⟩
  have := p4 (by intro m r hm hr; simp [ppSampleWorker] at hr)
  rw [this]
  decide

/-- C7: For every run of a collate worker that receives N data requests
before `EndOfProcess` (or timeout), the worker pushes exactly N
`EndOfTask` messages (one immediately after appending each inbound request
to its buffer) and, after the loop ends, calls the user worker exactly
once on the full buffered list and pushes exactly one aggregated response
message. -/
theorem collate_worker_accounting (worker : List Msg → Except PyError Msg)
    (evs : List WEvent) (s' : CWState) (rest : List WEvent) (resp : Msg)
    (h : cwLoop evs cwInit = .ok (s', rest))
    (hw : worker (wDataMsgs s'.log) = .ok resp) :
    s'.requests = wDataMsgs s'.log ∧
    s'.pushed = List.replicate (wDataMsgs s'.log).length EndOfTask ∧
    evs = s'.log ++ rest ∧
    CollateWorker worker evs = .ok
      { pushed := List.replicate (wDataMsgs s'.log).length EndOfTask
          ++ [resp]
        failures := [] } := by
  obtain ⟨⟨h1, h2⟩, consumed, hlog, hevs⟩ :=
    cwLoop_ok evs cwInit s' rest h ⟨rfl, rfl⟩
  have hconsumed : consumed = s'.log := by
    simpa [cwInit] using hlog.symm
  refine ⟨h1, h2, by rw [← hconsumed]; exact hevs, ?_⟩
  unfold CollateWorker
  rw [h]
  simp only [h1, hw, h2]

/-- C7 witness: two buffered requests yield two `EndOfTask` messages and a
single aggregated response. -/
theorem collate_worker_accounting_witness :
    CollateWorker cwSampleWorker cwSampleEvents = .ok
      { pushed := [EndOfTask, EndOfTask, ExpectedNItems 2]
        failures := [] } := by
  have h : cwLoop cwSampleEvents cwInit = .ok (cwSampleFinal, []) := by
    decide
  have hw : cwSampleWorker (wDataMsgs cwSampleFinal.log)
      = .ok (ExpectedNItems 2) := by decide
  have := (collate_worker_accounting cwSampleWorker cwSampleEvents
    cwSampleFinal [] (ExpectedNItems 2) h hw).2.2.2
  refine this.trans ?_
  decide

/-- C8: Constructing a Parallel scaffold raises an error before any socket
is created or any message is sent whenever the number of data push ports
differs from the number of downstream scaffold pair-out ports (the
`scaffold_ports` tuple minus its first, inbound entry); when the counts
are equal, construction proceeds. -/
theorem parallel_port_check (pull_port : Int) (push_ports : List Int)
    (sp0 : Int) (rest : List Int) :
    (ParallelConstruct pull_port push_ports (sp0 :: rest)
        = .error .valueError ↔ push_ports.length ≠ rest.length) ∧
    (push_ports.length = rest.length →
      ParallelConstruct pull_port push_ports (sp0 :: rest) =
        .ok { receiver := pull_port, senders := push_ports,
              scaffold_receiver := sp0, scaffold_senders := rest }) := by
  have hiff : ((push_ports.length : Int)
      = ((sp0 :: rest).length : Int) - 1) ↔
      push_ports.length = rest.length := by
    simp only [List.length_cons]
    omega
  constructor
  · constructor
    · intro h hlen
      rw [ParallelConstruct, if_neg (by simp [hiff, hlen])] at h
      simp at h
    · intro hne
      rw [ParallelConstruct, if_pos (by simp [hiff]; exact hne)]
  · intro hlen
    rw [ParallelConstruct, if_neg (by simp [hiff]; exact hlen)]

/-- C8 witness: one push port and one downstream pair port construct
successfully; the error case is checked at mismatched lengths. -/
theorem parallel_port_check_witness :
    ParallelConstruct 5000 [5001] (5002 :: [5003]) =
      .ok { receiver := 5000, senders := [5001],
            scaffold_receiver := 5002, scaffold_senders := [5003] } ∧
    ParallelConstruct 5000 [5001, 5004] (5002 :: [5003])
      = .error .valueError :=
  ⟨(parallel_port_check 5000 [5001] 5002 [5003]).2 (by decide),
   (parallel_port_check 5000 [5001, 5004] 5002 [5003]).1.mpr (by decide)⟩

/-- C10: The message predicates are partial on arbitrary inputs: `ismsg`
raises `ValueError` for every non-dictionary argument and returns `True`
exactly when the dictionary contains the key `header/request_type`; and
each of `iseot`, `iseop`, and `isexnit` raises `ValueError` for every
dictionary lacking that key, returning a boolean (tag equality) only on
dictionaries that contain it. -/
theorem message_predicates_partial :
    (∀ o : PyObj, o.isDict = false → ismsg o = .error .valueError) ∧
    (∀ d : Msg, ismsg (.dict d) = .ok (hasKey REQUEST_TYPE_KEY d)) ∧
    (∀ d : Msg, hasKey REQUEST_TYPE_KEY d = false →
      iseot (.dict d) = .error .valueError ∧
      iseop (.dict d) = .error .valueError ∧
      isexnit (.dict d) = .error .valueError) ∧
    (∀ d : Msg, hasKey REQUEST_TYPE_KEY d = true →
      iseot (.dict d) = .ok (decide (mlookup REQUEST_TYPE_KEY d
        = some (.s END_OF_TASK_VALUE))) ∧
      iseop (.dict d) = .ok (decide (mlookup REQUEST_TYPE_KEY d
        = some (.s END_OF_PROCESS_VALUE))) ∧
      isexnit (.dict d) = .ok (decide (mlookup REQUEST_TYPE_KEY d
        = some (.s EXPECTED_N_ITEMS_VALUE)))) := by
  refine ⟨?_, ?_, ?_, ?_⟩
  · intro o ho
    cases o <;> simp [PyObj.isDict] at ho ⊢ <;> rfl
  · intro d
    rfl
  · intro d hd
    refine ⟨?_, ?_, ?_⟩ <;>
      simp [iseot, iseop, isexnit, assert_ismsg, ismsg, hd]
  · intro d hd
    refine ⟨?_, ?_, ?_⟩ <;>
      simp [iseot, iseop, isexnit, assert_ismsg, ismsg, hd]

/-- C10 witness: `ismsg` on a string raises; `iseot` on a dict without the
request-type key raises; `iseot` on a well-formed `EndOfTask` dict is
true. -/
theorem message_predicates_partial_witness :
    ismsg (.str "x") = .error .valueError ∧
    iseot (.dict [(FILE_PATH_KEY, .s "a")]) = .error .valueError ∧
    iseot (.dict EndOfTask) = .ok true := by
  obtain ⟨p1, _, p3, p4⟩ := message_predicates_partial
  refine ⟨p1 _ (by decide), (p3 _ (by decide)).1, ?_⟩
  exact ((p4 EndOfTask (by decide)).1).trans (by decide)

/-- C4: For every well-formed message (a mapping of JSON-serializable
scalar fields plus zero or more numpy arrays, i.e. no duplicate keys and
C-contiguous arrays), sending it with `send_request` and receiving it with
`recv_request` yields an equal mapping: scalar fields unchanged, and each
array reconstructed with the same element type, shape, and contents as the
sender's array.  (The received dict lists the scalar fields first and the
arrays after, in metadata order; as a mapping it is equal: every key looks
up to the same value.) -/
theorem send_recv_roundtrip (request : Msg)
    (hkeys : (request.map Prod.fst).Nodup)
    (hwf : ∀ e ∈ arrEntries request, NDArray.wf e.2) :
    recv_request (send_request request)
      = .ok (scalarPart request
          ++ (arrEntries request).map fun e => (e.1, MVal.arr e.2)) ∧
    (∀ k, mlookup k (scalarPart request
          ++ (arrEntries request).map fun e => (e.1, MVal.arr e.2))
        = mlookup k request) ∧
    (∀ k a, (k, MVal.arr a) ∈ request →
      mlookup k (scalarPart request
          ++ (arrEntries request).map fun e => (e.1, MVal.arr e.2))
        = some (MVal.arr a)) := by
  have hnd2 : ((scalarPart request).map Prod.fst
      ++ (arrEntries request).map Prod.fst).Nodup :=
    ((scalar_arr_keys_perm request).nodup_iff).mpr hkeys
  refine ⟨?_, scalar_arr_lookup request hkeys, ?_⟩
  · rw [send_request_eq request hkeys]
    simp only [List.cons_append, List.nil_append, recv_request]
    exact recvArrays_spec (arrEntries request) (scalarPart request) hwf hnd2
  · intro k a hmem
    rw [scalar_arr_lookup request hkeys k]
    exact mem_arrEntries_lookup hkeys
      (List.mem_filterMap.mpr ⟨(k, MVal.arr a), hmem, rfl⟩)

/-- C4 witness: a concrete request with two scalar header fields and one
float32 array of shape (1, 2) round-trips through the envelope. -/
theorem send_recv_roundtrip_witness :
    recv_request (send_request rtSample)
      = .ok (scalarPart rtSample
          ++ (arrEntries rtSample).map fun e => (e.1, MVal.arr e.2)) ∧
    (∀ k, mlookup k (scalarPart rtSample
          ++ (arrEntries rtSample).map fun e => (e.1, MVal.arr e.2))
        = mlookup k rtSample) ∧
    (∀ k a, (k, MVal.arr a) ∈ rtSample →
      mlookup k (scalarPart rtSample
          ++ (arrEntries rtSample).map fun e => (e.1, MVal.arr e.2))
        = some (MVal.arr a)) :=
  send_recv_roundtrip rtSample (by decide) (by decide)

/-- C9 counterexample: the initial `ExtractionRequest` message constructed
from a file path does not contain the `header/batch_id` key, refuting the
claim that every constructor output carries all three header fields. -/
theorem extraction_request_missing_batch_id :
    hasKey BATCH_ID_KEY
      (ExtractionRequest "a.zip" (JVal.atom MVal.none) []) = false := by
  simp [ExtractionRequest, dictInsertJ, flatten_dictionary, newKey, hasKey,
    mlookup, REQUEST_TYPE_KEY, FILE_PATH_KEY, BATCH_ID_KEY, HEADER_KEY,
    KEY_SEP]

/-- C9 (amended): every `ExtractionResponse` message contains the three
header keys `header/request_type`, `header/file_path` and
`header/batch_id` (with batch_id possibly null, i.e. any non-dict value),
for every input; the `ExtractionRequest` message constructed from a file
path contains `header/request_type` and `header/file_path` but not
`header/batch_id`. -/
theorem extraction_message_header_keys (file_path : String) (bm : MVal)
    (metadata fluodata : Option JVal)
    (rec_properties : Option (JVal × JVal)) (rec0 rec1 label : Option JVal)
    (args : List JVal) (kwargs : List (String × JVal))
    (batch_id : JVal) (response : List (String × JVal)) :
    hasKey REQUEST_TYPE_KEY (ExtractionResponse file_path (JVal.atom bm)
      metadata fluodata rec_properties rec0 rec1 label args kwargs) = true ∧
    hasKey FILE_PATH_KEY (ExtractionResponse file_path (JVal.atom bm)
      metadata fluodata rec_properties rec0 rec1 label args kwargs) = true ∧
    hasKey BATCH_ID_KEY (ExtractionResponse file_path (JVal.atom bm)
      metadata fluodata rec_properties rec0 rec1 label args kwargs) = true ∧
    hasKey REQUEST_TYPE_KEY
      (ExtractionRequest file_path batch_id response) = true ∧
    hasKey FILE_PATH_KEY
      (ExtractionRequest file_path batch_id response) = true ∧
    hasKey BATCH_ID_KEY
      (ExtractionRequest file_path batch_id response) = false := by
  have hreq : ExtractionRequest file_path batch_id response =
      [(REQUEST_TYPE_KEY, MVal.s EXTRACTION_REQUEST_VALUE),
       (FILE_PATH_KEY, MVal.s file_path)] := by
    have hins : dictInsertJ
        [(REQUEST_TYPE_KEY, JVal.atom (.s EXTRACTION_REQUEST_VALUE))]
        FILE_PATH_KEY (.atom (.s file_path)) =
        [(REQUEST_TYPE_KEY, JVal.atom (.s EXTRACTION_REQUEST_VALUE)),
         (FILE_PATH_KEY, JVal.atom (.s file_path))] := rfl
    rw [ExtractionRequest, hins]
    simp [flatten_dictionary, newKey]
  have hkey : ∀ (k : String) (w : MVal),
      (k, JVal.atom w) ∈ dictInsertJ (dictInsertJ
        [(REQUEST_TYPE_KEY, JVal.atom (.s EXTRACTION_RESPONSE_VALUE))]
        FILE_PATH_KEY (.atom (.s file_path))) BATCH_ID_KEY
        (JVal.atom bm) →
      k.data.head? = some 'h' →
      hasKey k (ExtractionResponse file_path (JVal.atom bm) metadata
        fluodata rec_properties rec0 rec1 label args kwargs) = true := by
    intro k w hk hhead
    apply hasKey_of_mem
    have hmem := mem_extraction_response_dict metadata fluodata
      rec_properties rec0 rec1 label args kwargs hk hhead
    have hflat := flatten_mem_atom hmem ""
    simp only [ExtractionResponse]
    simpa [newKey] using hflat
  refine ⟨?_, ?_, ?_, ?_, ?_, ?_⟩
  · exact hkey REQUEST_TYPE_KEY (.s EXTRACTION_RESPONSE_VALUE)
      (mem_dictInsertJ_of_ne _ (mem_dictInsertJ_of_ne _ (by simp)
        (by decide)) (by decide)) rfl
  · exact hkey FILE_PATH_KEY (.s file_path)
      (mem_dictInsertJ_of_ne _ (mem_dictInsertJ_self _ _ _)
        (by decide)) rfl
  · exact hkey BATCH_ID_KEY bm (mem_dictInsertJ_self _ _ _) rfl
  · rw [hreq]
    simp [hasKey, mlookup]
  · rw [hreq]
    simp [hasKey, mlookup, REQUEST_TYPE_KEY, FILE_PATH_KEY, HEADER_KEY,
      KEY_SEP]
  · rw [hreq]
    simp [hasKey, mlookup, REQUEST_TYPE_KEY, FILE_PATH_KEY, BATCH_ID_KEY,
      HEADER_KEY, KEY_SEP]
